import Mathlib

/-!
# Verification of `replace_fontawesome.py`

A shallow embedding of the FontAwesome-to-emoji batch rewriter.  Python
text is modelled as `List Char` (one element per Unicode code point, as in
a Python `str`).  The three regular expressions used by the script are
embedded as a small pattern datatype `Pat` with Python's backtracking
semantics: alternatives are tried in priority order (greedy quantifiers
prefer the longest extent first), the scan is leftmost, and `re.sub` /
`re.findall` replace and count the same non-overlapping match sequence.
-/

set_option maxRecDepth 4000
set_option maxHeartbeats 4000000

namespace FontAwesome

/-- Python `str` text: a list of Unicode code points. -/
abbrev Str := List Char

/-- Code points of a Lean string literal. -/
def str (s : String) : Str := s.data

/-- Python's `\s` character class for `str` patterns (Unicode whitespace). -/
def wsChar (c : Char) : Bool :=
  let n := c.toNat
  n == 0x20 || n == 0x09 || n == 0x0a || n == 0x0d || n == 0x0b || n == 0x0c ||
  n == 0x1c || n == 0x1d || n == 0x1e || n == 0x1f || n == 0x85 || n == 0xa0 ||
  n == 0x1680 || (Nat.ble 0x2000 n && Nat.ble n 0x200a) || n == 0x2028 || n == 0x2029 ||
  n == 0x202f || n == 0x205f || n == 0x3000

/-- `[^"]` : any character other than a double quote. -/
def notQuote (c : Char) : Bool := c != '"'

/-- `[^>]` : any character other than `>`. -/
def notGt (c : Char) : Bool := c != '>'

/-- `[srb]` : the second letter of the `fas` / `far` / `fab` class. -/
def srbChar (c : Char) : Bool := c == 's' || c == 'r' || c == 'b'

/-- The fragment of Python regular expressions used by the script:
literals, single-character classes, concatenation, greedy `*` and `+`
over a character class, and a greedy optional group. -/
inductive Pat where
  | lit : Str → Pat
  | cls : (Char → Bool) → Pat
  | seq : Pat → Pat → Pat
  | starCls : (Char → Bool) → Pat
  | plusCls : (Char → Bool) → Pat
  | opt : Pat → Pat

/-- Remainders after a greedy `q*` starting here, in backtracking
priority order (longest consumed run first, empty run last). -/
def starRems (q : Char → Bool) : Str → List Str
  | [] => [[]]
  | c :: s => if q c then starRems q s ++ [c :: s] else [c :: s]

/-- All remainders after matching `p` at the head of `s`, in the order a
backtracking engine explores them.  The head of this list is the match
the engine commits to. -/
def mrun : Pat → Str → List Str
  | .lit l, s => if l.isPrefixOf s then [s.drop l.length] else []
  | .cls q, s => match s with | c :: t => if q c then [t] else [] | [] => []
  | .seq a b, s => (mrun a s).flatMap (mrun b)
  | .starCls q, s => starRems q s
  | .plusCls q, s => match s with | c :: t => if q c then starRems q t else [] | [] => []
  | .opt a, s => mrun a s ++ [s]

/-- One left-to-right scan, replacing each non-overlapping leftmost match
of `p` by `repl` and counting the matches — the common engine under
`re.sub` and `re.findall`.  `fuel` bounds the number of scan steps; it is
instantiated with the length of the text, which suffices because every
step consumes at least one character. -/
def scanSubAux (p : Pat) (repl : Str) : Nat → Str → Str × Nat
  | _, [] => ([], 0)
  | 0, s => (s, 0)
  | fuel + 1, c :: s =>
    match (mrun p (c :: s)).head? with
    | some rem =>
      if rem.length < s.length + 1 then
        let r := scanSubAux p repl fuel rem
        (repl ++ r.1, r.2 + 1)
      else
        let r := scanSubAux p repl fuel s
        (repl ++ c :: r.1, r.2 + 1)
    | none =>
      let r := scanSubAux p repl fuel s
      (c :: r.1, r.2)

/-- `re.sub(p, repl, s)`. -/
def pysub (p : Pat) (repl : Str) (s : Str) : Str := (scanSubAux p repl s.length s).1

/-- `len(re.findall(p, s))`. -/
def pycount (p : Pat) (s : Str) : Nat := (scanSubAux p [] s.length s).2

/-- Concatenation of a list of patterns. -/
def seqs : List Pat → Pat
  | [] => .lit []
  | [p] => p
  | p :: ps => .seq p (seqs ps)

/-- `pattern1` of the script:
`<i\s+class="fa[srb]\s+{icon}(?:\s+[^"]*)?"\s*(?:style="[^"]*")?\s*></i>\s*`. -/
def pat1 (icon : Str) : Pat :=
  seqs [.lit (str "<i"), .plusCls wsChar, .lit (str "class=\"fa"), .cls srbChar,
        .plusCls wsChar, .lit icon,
        .opt (.seq (.plusCls wsChar) (.starCls notQuote)),
        .lit (str "\""), .starCls wsChar,
        .opt (seqs [.lit (str "style=\""), .starCls notQuote, .lit (str "\"")]),
        .starCls wsChar, .lit (str "></i>"), .starCls wsChar]

/-- `pattern2` of the script:
`<i\s+class="[^"]*fa[srb]\s+{icon}[^"]*"\s*(?:style="[^"]*")?\s*></i>\s*`. -/
def pat2 (icon : Str) : Pat :=
  seqs [.lit (str "<i"), .plusCls wsChar, .lit (str "class=\""), .starCls notQuote,
        .lit (str "fa"), .cls srbChar, .plusCls wsChar, .lit icon, .starCls notQuote,
        .lit (str "\""), .starCls wsChar,
        .opt (seqs [.lit (str "style=\""), .starCls notQuote, .lit (str "\"")]),
        .starCls wsChar, .lit (str "></i>"), .starCls wsChar]

/-- The special-case spinner pattern:
`<i\s+class="fas\s+fa-spinner\s+fa-spin"[^>]*></i>`. -/
def spinnerPat : Pat :=
  seqs [.lit (str "<i"), .plusCls wsChar, .lit (str "class=\"fas"), .plusCls wsChar,
        .lit (str "fa-spinner"), .plusCls wsChar, .lit (str "fa-spin\""),
        .starCls notGt, .lit (str "></i>")]

/-- `ICON_MAP`, in the source's insertion order. -/
def ICON_MAP : List (Str × Str) := [
  (str "fa-arrow-left", str "←"),
  (str "fa-arrow-right", str "→"),
  (str "fa-arrow-up", str "↑"),
  (str "fa-arrow-down", str "↓"),
  (str "fa-chevron-left", str "‹"),
  (str "fa-chevron-right", str "›"),
  (str "fa-times", str "✖️"),
  (str "fa-times-circle", str "❌"),
  (str "fa-check", str "✓"),
  (str "fa-check-circle", str "✅"),
  (str "fa-plus", str "➕"),
  (str "fa-minus", str "➖"),
  (str "fa-minus-circle", str "➖"),
  (str "fa-save", str "💾"),
  (str "fa-edit", str "✏️"),
  (str "fa-trash", str "🗑️"),
  (str "fa-trash-alt", str "🗑️"),
  (str "fa-search", str "🔍"),
  (str "fa-filter", str "🔍"),
  (str "fa-sync", str "🔄"),
  (str "fa-sync-alt", str "🔄"),
  (str "fa-refresh", str "🔄"),
  (str "fa-redo", str "🔄"),
  (str "fa-spinner", str "⏳"),
  (str "fa-cog", str "⚙️"),
  (str "fa-eye", str "👁️"),
  (str "fa-download", str "⬇️"),
  (str "fa-upload", str "⬆️"),
  (str "fa-file-upload", str "📤"),
  (str "fa-play", str "▶️"),
  (str "fa-circle", str "🔵"),
  (str "fa-info-circle", str "ℹ️"),
  (str "fa-question-circle", str "❓"),
  (str "fa-exclamation-circle", str "⚠️"),
  (str "fa-exclamation-triangle", str "⚠️"),
  (str "fa-lightbulb", str "💡"),
  (str "fa-bell", str "🔔"),
  (str "fa-clock", str "⏱️"),
  (str "fa-calendar", str "📅"),
  (str "fa-calendar-plus", str "📅"),
  (str "fa-calendar-alt", str "📅"),
  (str "fa-calendar-check", str "✅"),
  (str "fa-history", str "📜"),
  (str "fa-stopwatch", str "⏱️"),
  (str "fa-envelope", str "✉️"),
  (str "fa-phone", str "📞"),
  (str "fa-comments", str "💬"),
  (str "fa-comment", str "💬"),
  (str "fa-paper-plane", str "📤"),
  (str "fa-reply", str "↩️"),
  (str "fa-inbox", str "📥"),
  (str "fa-user", str "👤"),
  (str "fa-users", str "👥"),
  (str "fa-user-circle", str "👤"),
  (str "fa-user-check", str "✅"),
  (str "fa-building", str "🏢"),
  (str "fa-briefcase", str "💼"),
  (str "fa-handshake", str "🤝"),
  (str "fa-folder", str "📁"),
  (str "fa-folder-open", str "📂"),
  (str "fa-folder-plus", str "📁"),
  (str "fa-file-alt", str "📄"),
  (str "fa-file-contract", str "📋"),
  (str "fa-robot", str "🤖"),
  (str "fa-laptop-code", str "💻"),
  (str "fa-database", str "💾"),
  (str "fa-server", str "🖥️"),
  (str "fa-terminal", str "💻"),
  (str "fa-code", str "💻"),
  (str "fa-shield-alt", str "🛡️"),
  (str "fa-lock", str "🔒"),
  (str "fa-key", str "🔑"),
  (str "fa-image", str "🖼️"),
  (str "fa-music", str "🎵"),
  (str "fa-microphone", str "🎤"),
  (str "fa-video", str "🎥"),
  (str "fa-newspaper", str "📰"),
  (str "fa-map-marker-alt", str "📍"),
  (str "fa-map-signs", str "🗺️"),
  (str "fa-globe", str "🌍"),
  (str "fa-facebook", str "📘"),
  (str "fa-instagram", str "📷"),
  (str "fa-tiktok", str "🎵"),
  (str "fa-linkedin", str "💼"),
  (str "fa-youtube", str "📺"),
  (str "fa-twitter", str "🐦"),
  (str "fa-google", str "🔍"),
  (str "fa-share-alt", str "🔗"),
  (str "fa-list", str "📋"),
  (str "fa-list-check", str "✅"),
  (str "fa-chart-bar", str "📊"),
  (str "fa-chart-line", str "📈"),
  (str "fa-toggle-on", str "🔛"),
  (str "fa-sitemap", str "🗺️"),
  (str "fa-tag", str "🏷️"),
  (str "fa-tags", str "🏷️"),
  (str "fa-link", str "🔗"),
  (str "fa-external-link-alt", str "🔗"),
  (str "fa-bolt", str "⚡"),
  (str "fa-mobile-alt", str "📱"),
  (str "fa-rocket", str "🚀"),
  (str "fa-magic", str "✨"),
  (str "fa-star", str "⭐"),
  (str "fa-broom", str "🧹"),
  (str "fa-box-open", str "📦"),
  (str "fa-undo", str "↩️"),
  (str "fa-flask", str "🧪"),
  (str "fa-vial", str "🧪"),
  (str "fa-ban", str "🚫"),
  (str "fa-sliders-h", str "🎚️"),
  (str "fa-exchange-alt", str "🔄"),
  (str "fa-plug", str "🔌"),
  (str "fa-door-open", str "🚪"),
  (str "fa-layer-group", str "📚"),
  (str "fa-network-wired", str "🌐"),
  (str "fa-signal", str "📶"),
  (str "fa-hand-pointer", str "👆"),
  (str "fa-ellipsis-h", str "⋯"),
  (str "fa-sort", str "⇅"),
  (str "fa-sort-numeric-down", str "🔢"),
  (str "fa-archive", str "📦"),
  (str "fa-guitar", str "🎸"),
  (str "fa-home", str "🏠"),
  (str "fa-sign-out-alt", str "🚪"),
  (str "fa-circle-notch", str "⏳"),
  (str "fa-satellite-dish", str "📡"),
  (str "fa-book", str "📖")]

/-- One `findall`-then-conditional-`sub` step of the loop body:
`matches = re.findall(p, content); if matches: content = re.sub(p, repl, content); changes += len(matches)`. -/
def subPass (p : Pat) (repl : Str) (st : Str × Nat) : Str × Nat :=
  let n := pycount p st.1
  if n ≠ 0 then (pysub p repl st.1, st.2 + n) else st

/-- The body of `for fa_class, emoji in ICON_MAP.items()`: pattern 1,
then pattern 2, each replacing by the emoji followed by one space. -/
def iconStep (st : Str × Nat) (e : Str × Str) : Str × Nat :=
  subPass (pat2 e.1) (e.2 ++ [' ']) (subPass (pat1 e.1) (e.2 ++ [' ']) st)

/-- The pure text transformation of `replace_fontawesome_in_file`: all
generic identifier passes in `ICON_MAP` order, then the unconditional
spinner special case.  Returns the new content and `changes`. -/
def processContent (content : Str) : Str × Nat :=
  let st := ICON_MAP.foldl iconStep (content, 0)
  (pysub spinnerPat (str "⏳") st.1, st.2)

/-- The narrow single-token icon element for identifier `k`:
`<i class="fas {k}"></i>`. -/
def narrowOf (k : Str) : Str :=
  '<' :: 'i' :: ' ' :: 'c' :: 'l' :: 'a' :: 's' :: 's' :: '=' :: '"' :: 'f' :: 'a' :: 's' :: ' ' ::
    (k ++ '"' :: '>' :: '<' :: '/' :: 'i' :: '>' :: [])

/-- The narrow icon element for identifier `k` with the example style
attribute: `<i class="fas {k}" style="color:red"></i>`. -/
def styledOf (k : Str) : Str :=
  '<' :: 'i' :: ' ' :: 'c' :: 'l' :: 'a' :: 's' :: 's' :: '=' :: '"' :: 'f' :: 'a' :: 's' :: ' ' ::
    (k ++ '"' :: ' ' :: 's' :: 't' :: 'y' :: 'l' :: 'e' :: '=' :: '"' ::
     'c' :: 'o' :: 'l' :: 'o' :: 'r' :: ':' :: 'r' :: 'e' :: 'd' :: '"' ::
     '>' :: '<' :: '/' :: 'i' :: '>' :: [])

/-! ## Generic facts about the scanner -/

theorem scanSubAux_nil (p : Pat) (r : Str) (f : Nat) : scanSubAux p r f [] = ([], 0) := by
  cases f <;> rfl

theorem scanSubAux_zero (p : Pat) (r : Str) (s : Str) : scanSubAux p r 0 s = (s, 0) := by
  cases s <;> rfl

theorem scanSubAux_cons (p : Pat) (r : Str) (f : Nat) (c : Char) (s : Str) :
    scanSubAux p r (f + 1) (c :: s) =
      match (mrun p (c :: s)).head? with
      | some rem =>
        if rem.length < s.length + 1 then
          let q := scanSubAux p r f rem
          (r ++ q.1, q.2 + 1)
        else
          let q := scanSubAux p r f s
          (r ++ c :: q.1, q.2 + 1)
      | none =>
        let q := scanSubAux p r f s
        (c :: q.1, q.2) := rfl

theorem scanSubAux_cons_none (p : Pat) (r : Str) (f : Nat) (c : Char) (s : Str)
    (hm : (mrun p (c :: s)).head? = none) :
    scanSubAux p r (f + 1) (c :: s) =
      (c :: (scanSubAux p r f s).1, (scanSubAux p r f s).2) := by
  rw [scanSubAux_cons, hm]

theorem scanSubAux_cons_some_lt (p : Pat) (r : Str) (f : Nat) (c : Char) (s rem : Str)
    (hm : (mrun p (c :: s)).head? = some rem) (h : rem.length < s.length + 1) :
    scanSubAux p r (f + 1) (c :: s) =
      (r ++ (scanSubAux p r f rem).1, (scanSubAux p r f rem).2 + 1) := by
  rw [scanSubAux_cons, hm]
  simp only [if_pos h]

theorem scanSubAux_cons_some_ge (p : Pat) (r : Str) (f : Nat) (c : Char) (s rem : Str)
    (hm : (mrun p (c :: s)).head? = some rem) (h : ¬ rem.length < s.length + 1) :
    scanSubAux p r (f + 1) (c :: s) =
      (r ++ c :: (scanSubAux p r f s).1, (scanSubAux p r f s).2 + 1) := by
  rw [scanSubAux_cons, hm]
  simp only [if_neg h]

/-- The number of matches found by a scan does not depend on the
replacement text. -/
theorem scanSubAux_snd_indep (p : Pat) (r r' : Str) :
    ∀ f s, (scanSubAux p r f s).2 = (scanSubAux p r' f s).2 := by
  intro f
  induction f with
  | zero => intro s; rw [scanSubAux_zero, scanSubAux_zero]
  | succ f ih =>
    intro s
    cases s with
    | nil => rw [scanSubAux_nil, scanSubAux_nil]
    | cons c t =>
      cases hm : (mrun p (c :: t)).head? with
      | none => rw [scanSubAux_cons_none p r f c t hm, scanSubAux_cons_none p r' f c t hm]; exact ih t
      | some rem =>
        by_cases h : rem.length < t.length + 1
        · rw [scanSubAux_cons_some_lt p r f c t rem hm h, scanSubAux_cons_some_lt p r' f c t rem hm h]
          exact congrArg (· + 1) (ih rem)
        · rw [scanSubAux_cons_some_ge p r f c t rem hm h, scanSubAux_cons_some_ge p r' f c t rem hm h]
          exact congrArg (· + 1) (ih t)

/-- A scan that found no match returns its input unchanged. -/
theorem scanSubAux_fst_of_snd_zero (p : Pat) (r : Str) :
    ∀ f s, (scanSubAux p r f s).2 = 0 → (scanSubAux p r f s).1 = s := by
  intro f
  induction f with
  | zero => intro s _; rw [scanSubAux_zero]
  | succ f ih =>
    intro s hz
    cases s with
    | nil => rw [scanSubAux_nil]
    | cons c t =>
      cases hm : (mrun p (c :: t)).head? with
      | none =>
        rw [scanSubAux_cons_none p r f c t hm] at hz ⊢
        rw [ih t hz]
      | some rem =>
        by_cases h : rem.length < t.length + 1
        · rw [scanSubAux_cons_some_lt p r f c t rem hm h] at hz
          exact absurd hz (Nat.succ_ne_zero _)
        · rw [scanSubAux_cons_some_ge p r f c t rem hm h] at hz
          exact absurd hz (Nat.succ_ne_zero _)

/-- `mrun` finds no match at any position of `s`. -/
def noMatchAll (p : Pat) : Str → Prop
  | [] => True
  | c :: s => mrun p (c :: s) = [] ∧ noMatchAll p s

theorem scanSubAux_of_noMatchAll (p : Pat) (r : Str) :
    ∀ f s, noMatchAll p s → scanSubAux p r f s = (s, 0) := by
  intro f
  induction f with
  | zero => intro s _; exact scanSubAux_zero ..
  | succ f ih =>
    intro s hs
    cases s with
    | nil => exact scanSubAux_nil ..
    | cons c t =>
      have hm : (mrun p (c :: t)).head? = none := by rw [hs.1]; rfl
      rw [scanSubAux_cons_none p r f c t hm, ih t hs.2]

theorem pycount_of_noMatchAll (p : Pat) (s : Str) (h : noMatchAll p s) : pycount p s = 0 := by
  unfold pycount; rw [scanSubAux_of_noMatchAll p [] s.length s h]

theorem pysub_of_noMatchAll (p : Pat) (r s : Str) (h : noMatchAll p s) : pysub p r s = s := by
  unfold pysub; rw [scanSubAux_of_noMatchAll p r s.length s h]

theorem pysub_of_pycount_zero (p : Pat) (r s : Str) (h : pycount p s = 0) : pysub p r s = s := by
  unfold pysub
  refine scanSubAux_fst_of_snd_zero p r s.length s ?_
  rw [scanSubAux_snd_indep p r []]
  exact h

theorem subPass_of_pycount_zero (p : Pat) (r : Str) (st : Str × Nat)
    (h : pycount p st.1 = 0) : subPass p r st = st := by
  simp [subPass, h]

theorem iconStep_of_pycount_zero (e : Str × Str) (st : Str × Nat)
    (h1 : pycount (pat1 e.1) st.1 = 0) (h2 : pycount (pat2 e.1) st.1 = 0) :
    iconStep st e = st := by
  unfold iconStep
  rw [subPass_of_pycount_zero _ _ _ h1, subPass_of_pycount_zero _ _ _ h2]

/-! ## Patterns of the script never match where there is no `<i` -/

theorem mrun_seq_lit_head_ne (l : Str) (b : Pat) (c : Char) (s : Str) (h : c ≠ '<') :
    mrun (.seq (.lit ('<' :: l)) b) (c :: s) = [] := by
  have hc : ('<' == c) = false := beq_eq_false_iff_ne.mpr (Ne.symm h)
  simp [mrun, List.isPrefixOf, hc]

theorem noMatchAll_of_ne_lt (l : Str) (b : Pat) :
    ∀ s, (∀ c ∈ s, c ≠ '<') → noMatchAll (.seq (.lit ('<' :: l)) b) s := by
  intro s
  induction s with
  | nil => intro _; trivial
  | cons c t ih =>
    intro h
    exact ⟨mrun_seq_lit_head_ne _ _ _ _ (h c (List.mem_cons_self ..)),
           ih (fun d hd => h d (List.mem_cons_of_mem _ hd))⟩

theorem pat1_shape (k : Str) : ∃ b, pat1 k = .seq (.lit ('<' :: 'i' :: [])) b := ⟨_, rfl⟩

theorem pat2_shape (k : Str) : ∃ b, pat2 k = .seq (.lit ('<' :: 'i' :: [])) b := ⟨_, rfl⟩

theorem spinnerPat_shape : ∃ b, spinnerPat = .seq (.lit ('<' :: 'i' :: [])) b := ⟨_, rfl⟩

theorem pysub_spinner_noLt (r s : Str) (h : ∀ c ∈ s, c ≠ '<') :
    pysub spinnerPat r s = s := by
  obtain ⟨b, hb⟩ := spinnerPat_shape
  rw [hb]
  exact pysub_of_noMatchAll _ _ _ (noMatchAll_of_ne_lt _ _ _ h)

theorem iconStep_noLt (e : Str × Str) (st : Str × Nat) (h : ∀ c ∈ st.1, c ≠ '<') :
    iconStep st e = st := by
  obtain ⟨b1, hb1⟩ := pat1_shape e.1
  obtain ⟨b2, hb2⟩ := pat2_shape e.1
  refine iconStep_of_pycount_zero e st ?_ ?_
  · rw [hb1]; exact pycount_of_noMatchAll _ _ (noMatchAll_of_ne_lt _ _ _ h)
  · rw [hb2]; exact pycount_of_noMatchAll _ _ (noMatchAll_of_ne_lt _ _ _ h)

theorem foldl_iconStep_noLt (l : List (Str × Str)) (st : Str × Nat)
    (h : ∀ c ∈ st.1, c ≠ '<') : List.foldl iconStep st l = st := by
  induction l with
  | nil => rfl
  | cons e t ih => rw [List.foldl_cons, iconStep_noLt e st h]; exact ih

/-! ## Small-step equations for `mrun` -/

theorem mrun_seq (a b : Pat) (s : Str) :
    mrun (.seq a b) s = (mrun a s).flatMap (mrun b) := rfl

theorem mrun_seq_single (a b : Pat) (s r : Str) (ha : mrun a s = [r]) :
    mrun (.seq a b) s = mrun b r := by
  rw [mrun_seq, ha]; simp

theorem mrun_seq_of_nil (a b : Pat) (s : Str) (ha : mrun a s = []) :
    mrun (.seq a b) s = [] := by
  rw [mrun_seq, ha]; rfl

theorem mrun_lit_nil (s : Str) : mrun (.lit []) s = [s] := by
  simp [mrun, List.isPrefixOf]

theorem mrun_lit_cons_eq (c : Char) (l s : Str) :
    mrun (.lit (c :: l)) (c :: s) = mrun (.lit l) s := by
  by_cases hp : l.isPrefixOf s = true <;>
    simp [mrun, List.isPrefixOf, hp]

theorem mrun_lit_cons_ne (c d : Char) (l s : Str) (h : c ≠ d) :
    mrun (.lit (c :: l)) (d :: s) = [] := by
  have hc : (c == d) = false := beq_eq_false_iff_ne.mpr h
  simp [mrun, List.isPrefixOf, hc]

theorem mrun_lit_cons_nil (c : Char) (l : Str) : mrun (.lit (c :: l)) [] = [] := by
  simp [mrun, List.isPrefixOf]

theorem mrun_cls_pos (q : Char → Bool) (c : Char) (s : Str) (h : q c = true) :
    mrun (.cls q) (c :: s) = [s] := by
  simp [mrun, h]

theorem mrun_cls_neg (q : Char → Bool) (c : Char) (s : Str) (h : q c = false) :
    mrun (.cls q) (c :: s) = [] := by
  simp [mrun, h]

theorem mrun_plusCls_pos (q : Char → Bool) (c : Char) (s : Str) (h : q c = true) :
    mrun (.plusCls q) (c :: s) = starRems q s := by
  simp [mrun, h]

theorem mrun_plusCls_neg (q : Char → Bool) (c : Char) (s : Str) (h : q c = false) :
    mrun (.plusCls q) (c :: s) = [] := by
  simp [mrun, h]

theorem mrun_plusCls_nil (q : Char → Bool) : mrun (.plusCls q) [] = [] := by
  simp [mrun]

theorem starRems_not_first (q : Char → Bool) (c : Char) (s : Str) (h : q c = false) :
    starRems q (c :: s) = [c :: s] := by
  simp [starRems, h]

/-- A greedy star cannot advance past its first failing character: on
`x ++ c :: v` with every character of `x` accepted and `c` rejected it
stops exactly at `c`, leaving a single alternative. -/
theorem starRems_append_stop (q : Char → Bool) (x : Str) (c : Char) (v : Str)
    (hx : ∀ d ∈ x, q d = false) (hc : q c = false) :
    starRems q (x ++ c :: v) = [x ++ c :: v] := by
  cases x with
  | nil => simpa using starRems_not_first q c v hc
  | cons d t =>
    have hd : q d = false := hx d (List.mem_cons_self ..)
    simpa using starRems_not_first q d (t ++ c :: v) hd

/-- Remainders of a greedy star are obtained by consuming a run of
accepted characters. -/
theorem starRems_mem (q : Char → Bool) :
    ∀ (w r : Str), r ∈ starRems q w → ∃ u, u ++ r = w ∧ ∀ c ∈ u, q c = true := by
  intro w
  induction w with
  | nil =>
    intro r hr
    simp [starRems] at hr
    exact ⟨[], by simp [hr], by simp⟩
  | cons c t ih =>
    intro r hr
    by_cases hc : q c = true
    · rw [starRems, if_pos hc] at hr
      rcases List.mem_append.mp hr with h | h
      · obtain ⟨u, hu, hq⟩ := ih r h
        exact ⟨c :: u, by simp [hu], by
          intro d hd
          rcases List.mem_cons.mp hd with rfl | hd
          · exact hc
          · exact hq d hd⟩
      · simp at h
        exact ⟨[], by simp [h], by simp⟩
    · rw [starRems, if_neg hc] at hr
      simp at hr
      exact ⟨[], by simp [hr], by simp⟩

theorem flatMap_nil_of_all {α β : Type} (f : α → List β) (l : List α)
    (h : ∀ a ∈ l, f a = []) : l.flatMap f = [] := by
  induction l with
  | nil => rfl
  | cons a t ih =>
    rw [List.flatMap_cons, h a (List.mem_cons_self ..), List.nil_append]
    exact ih (fun b hb => h b (List.mem_cons_of_mem _ hb))

/-- A word that is not a prefix of `x` and contains no `"` is not a
prefix of `x` extended with a quoted tail either. -/
theorem isPrefixOf_append_quote (k x v : Str)
    (hkq : ∀ c ∈ k, c ≠ '"') (hk : k.isPrefixOf x = false) :
    k.isPrefixOf (x ++ '"' :: v) = false := by
  induction k generalizing x with
  | nil => simp [List.isPrefixOf] at hk
  | cons a k' ih =>
    cases x with
    | nil =>
      have ha : (a == '"') = false :=
        beq_eq_false_iff_ne.mpr (hkq a (List.mem_cons_self ..))
      simp [List.isPrefixOf, ha]
    | cons b x' =>
      simp only [List.cons_append, List.isPrefixOf] at hk ⊢
      cases hab : (a == b) with
      | false => simp [hab]
      | true =>
        rw [hab] at hk
        simp only [Bool.true_and] at hk ⊢
        exact ih x' (fun c hc => hkq c (List.mem_cons_of_mem _ hc)) hk

/-- A run of accepted characters splits off the quote-free part: if
`u ++ r = x ++ '"' :: v` and `u` avoids `"` while `x` also avoids `"`,
then `u` stops inside `x`. -/
theorem run_split_at_quote (x : Str) (v : Str) :
    ∀ (u r : Str), u ++ r = x ++ '"' :: v → (∀ c ∈ u, c ≠ '"') →
      ∃ x', x = u ++ x' ∧ r = x' ++ '"' :: v := by
  intro u
  induction u generalizing x with
  | nil => intro r h _; exact ⟨x, rfl, by simpa using h⟩
  | cons c u' ih =>
    intro r h hq
    cases x with
    | nil =>
      simp only [List.cons_append, List.nil_append] at h
      have : c = '"' := (List.cons.injEq .. ▸ h).1
      exact absurd this (hq c (List.mem_cons_self ..))
    | cons d x1 =>
      simp only [List.cons_append] at h
      have hcd : c = d := (List.cons.injEq .. ▸ h).1
      have htl : u' ++ r = x1 ++ '"' :: v := (List.cons.injEq .. ▸ h).2
      obtain ⟨x', hx', hr⟩ := ih x1 r htl (fun e he => hq e (List.mem_cons_of_mem _ he))
      exact ⟨x', by rw [hcd, hx']; rfl, hr⟩

/-! ## The two generic patterns, written out character by character -/

theorem pat1_chars (k : Str) : pat1 k =
    .seq (.lit ['<', 'i'])
    (.seq (.plusCls wsChar)
    (.seq (.lit ['c', 'l', 'a', 's', 's', '=', '"', 'f', 'a'])
    (.seq (.cls srbChar)
    (.seq (.plusCls wsChar)
    (.seq (.lit k)
    (.seq (.opt (.seq (.plusCls wsChar) (.starCls notQuote)))
    (.seq (.lit ['"'])
    (.seq (.starCls wsChar)
    (.seq (.opt (.seq (.lit ['s', 't', 'y', 'l', 'e', '=', '"'])
                 (.seq (.starCls notQuote) (.lit ['"']))))
    (.seq (.starCls wsChar)
    (.seq (.lit ['>', '<', '/', 'i', '>'])
    (.starCls wsChar)))))))))))) := rfl

theorem pat2_chars (k : Str) : pat2 k =
    .seq (.lit ['<', 'i'])
    (.seq (.plusCls wsChar)
    (.seq (.lit ['c', 'l', 'a', 's', 's', '=', '"'])
    (.seq (.starCls notQuote)
    (.seq (.lit ['f', 'a'])
    (.seq (.cls srbChar)
    (.seq (.plusCls wsChar)
    (.seq (.lit k)
    (.seq (.starCls notQuote)
    (.seq (.lit ['"'])
    (.seq (.starCls wsChar)
    (.seq (.opt (.seq (.lit ['s', 't', 'y', 'l', 'e', '=', '"'])
                 (.seq (.starCls notQuote) (.lit ['"']))))
    (.seq (.starCls wsChar)
    (.seq (.lit ['>', '<', '/', 'i', '>'])
    (.starCls wsChar)))))))))))))) := rfl

/-! ## Stage lemmas walking both patterns down the narrow form -/

theorem mrun_lit_lti (s : Str) : mrun (.lit ['<', 'i']) ('<' :: 'i' :: s) = [s] := by
  simp only [mrun_lit_cons_eq, mrun_lit_nil]

theorem mrun_ws_then_c (s : Str) :
    mrun (.plusCls wsChar) (' ' :: 'c' :: s) = ['c' :: s] := by
  rw [mrun_plusCls_pos _ _ _ (by decide), starRems_not_first _ _ _ (by decide)]

theorem mrun_lit_class9 (s : Str) :
    mrun (.lit ['c', 'l', 'a', 's', 's', '=', '"', 'f', 'a'])
      ('c' :: 'l' :: 'a' :: 's' :: 's' :: '=' :: '"' :: 'f' :: 'a' :: s) = [s] := by
  simp only [mrun_lit_cons_eq, mrun_lit_nil]

theorem mrun_lit_class7 (s : Str) :
    mrun (.lit ['c', 'l', 'a', 's', 's', '=', '"'])
      ('c' :: 'l' :: 'a' :: 's' :: 's' :: '=' :: '"' :: s) = [s] := by
  simp only [mrun_lit_cons_eq, mrun_lit_nil]

theorem mrun_lit_fa (s : Str) : mrun (.lit ['f', 'a']) ('f' :: 'a' :: s) = [s] := by
  simp only [mrun_lit_cons_eq, mrun_lit_nil]

theorem mrun_srb_s (s : Str) : mrun (.cls srbChar) ('s' :: s) = [s] :=
  mrun_cls_pos _ _ _ (by decide)

theorem mrun_ws_stop (x v : Str) (hxw : ∀ c ∈ x, wsChar c = false) :
    mrun (.plusCls wsChar) (' ' :: (x ++ '"' :: v)) = [x ++ '"' :: v] := by
  rw [mrun_plusCls_pos _ _ _ (by decide), starRems_append_stop wsChar x '"' v hxw (by decide)]

theorem mrun_lit_not_pre (k s : Str) (h : k.isPrefixOf s = false) :
    mrun (.lit k) s = [] := by
  simp [mrun, h]

/-- Pattern 1 for identifier `k` does not match at the head of an icon
element whose class attribute is `fas x` for an identifier `x` that `k`
is not a prefix of — whatever follows the closing quote. -/
theorem mrun_pat1_head (k x v : Str)
    (hxw : ∀ c ∈ x, wsChar c = false)
    (hkq : ∀ c ∈ k, c ≠ '"')
    (hk : k.isPrefixOf x = false) :
    mrun (pat1 k) ('<' :: 'i' :: ' ' :: 'c' :: 'l' :: 'a' :: 's' :: 's' :: '=' :: '"' ::
      'f' :: 'a' :: 's' :: ' ' :: (x ++ '"' :: v)) = [] := by
  rw [pat1_chars]
  rw [mrun_seq_single _ _ _ _ (mrun_lit_lti _)]
  rw [mrun_seq_single _ _ _ _ (mrun_ws_then_c _)]
  rw [mrun_seq_single _ _ _ _ (mrun_lit_class9 _)]
  rw [mrun_seq_single _ _ _ _ (mrun_srb_s _)]
  rw [mrun_seq_single _ _ _ _ (mrun_ws_stop x _ hxw)]
  exact mrun_seq_of_nil _ _ _ (mrun_lit_not_pre _ _ (isPrefixOf_append_quote k x _ hkq hk))

/-- After `fa`, `[srb]`, inside a whitespace-free run followed by the
closing quote, the mandatory `\s+` of the patterns can never be
satisfied, so the rest of the pattern dies. -/
theorem mrun_dead_after_fa (Z : Pat) (y v : Str)
    (hyw : ∀ c ∈ y, wsChar c = false) :
    mrun (.seq (.lit ['f', 'a']) (.seq (.cls srbChar) (.seq (.plusCls wsChar) Z)))
      (y ++ '"' :: v) = [] := by
  cases y with
  | nil => exact mrun_seq_of_nil _ _ _ (mrun_lit_cons_ne _ _ _ _ (by decide))
  | cons c y1 =>
    by_cases hc : c = 'f'
    · subst hc
      cases y1 with
      | nil =>
        refine mrun_seq_of_nil _ _ _ ?_
        rw [List.cons_append, List.nil_append, mrun_lit_cons_eq]
        exact mrun_lit_cons_ne _ _ _ _ (by decide)
      | cons d y2 =>
        by_cases hd : d = 'a'
        · subst hd
          rw [List.cons_append, List.cons_append]
          rw [mrun_seq_single _ _ _ _ (mrun_lit_fa _)]
          cases y2 with
          | nil => exact mrun_seq_of_nil _ _ _ (mrun_cls_neg _ _ _ (by decide))
          | cons e y3 =>
            cases hse : srbChar e with
            | false =>
              refine mrun_seq_of_nil _ _ _ ?_
              rw [List.cons_append]
              exact mrun_cls_neg _ _ _ hse
            | true =>
              rw [List.cons_append, mrun_seq_single _ _ _ _ (mrun_cls_pos _ _ _ hse)]
              cases y3 with
              | nil => exact mrun_seq_of_nil _ _ _ (mrun_plusCls_neg _ _ _ (by decide))
              | cons g y4 =>
                refine mrun_seq_of_nil _ _ _ ?_
                rw [List.cons_append]
                exact mrun_plusCls_neg _ _ _
                  (hyw g (by simp))
        · refine mrun_seq_of_nil _ _ _ ?_
          rw [List.cons_append, List.cons_append, mrun_lit_cons_eq]
          exact mrun_lit_cons_ne _ _ _ _ (fun h => hd h.symm)
    · refine mrun_seq_of_nil _ _ _ ?_
      rw [List.cons_append]
      exact mrun_lit_cons_ne _ _ _ _ (fun h => hc h.symm)

/-- Pattern 2 for identifier `k` does not match at the head of an icon
element whose class attribute is `fas x` for an identifier `x` that `k`
is not a prefix of — whatever follows the closing quote. -/
theorem mrun_pat2_head (k x v : Str)
    (hxw : ∀ c ∈ x, wsChar c = false)
    (hkq : ∀ c ∈ k, c ≠ '"')
    (hk : k.isPrefixOf x = false) :
    mrun (pat2 k) ('<' :: 'i' :: ' ' :: 'c' :: 'l' :: 'a' :: 's' :: 's' :: '=' :: '"' ::
      'f' :: 'a' :: 's' :: ' ' :: (x ++ '"' :: v)) = [] := by
  rw [pat2_chars]
  rw [mrun_seq_single _ _ _ _ (mrun_lit_lti _)]
  rw [mrun_seq_single _ _ _ _ (mrun_ws_then_c _)]
  rw [mrun_seq_single _ _ _ _ (mrun_lit_class7 _)]
  rw [mrun_seq]
  apply flatMap_nil_of_all
  intro r hr
  obtain ⟨u, hu, huq'⟩ := starRems_mem notQuote _ r hr
  have huq : ∀ c ∈ u, c ≠ '"' := by
    intro c hc
    have := huq' c hc
    simpa [notQuote] using this
  cases u with
  | nil =>
    simp only [List.nil_append] at hu
    subst hu
    rw [mrun_seq_single _ _ _ _ (mrun_lit_fa _)]
    rw [mrun_seq_single _ _ _ _ (mrun_srb_s _)]
    rw [mrun_seq_single _ _ _ _ (mrun_ws_stop x _ hxw)]
    exact mrun_seq_of_nil _ _ _ (mrun_lit_not_pre _ _ (isPrefixOf_append_quote k x _ hkq hk))
  | cons c u1 =>
    rw [List.cons_append] at hu
    injection hu with hc hu1
    subst hc
    cases u1 with
    | nil =>
      simp only [List.nil_append] at hu1
      subst hu1
      exact mrun_seq_of_nil _ _ _ (mrun_lit_cons_ne _ _ _ _ (by decide))
    | cons d u2 =>
      rw [List.cons_append] at hu1
      injection hu1 with hd hu2
      subst hd
      cases u2 with
      | nil =>
        simp only [List.nil_append] at hu2
        subst hu2
        exact mrun_seq_of_nil _ _ _ (mrun_lit_cons_ne _ _ _ _ (by decide))
      | cons e u3 =>
        rw [List.cons_append] at hu2
        injection hu2 with he hu3
        subst he
        cases u3 with
        | nil =>
          simp only [List.nil_append] at hu3
          subst hu3
          exact mrun_seq_of_nil _ _ _ (mrun_lit_cons_ne _ _ _ _ (by decide))
        | cons g u4 =>
          rw [List.cons_append] at hu3
          injection hu3 with hg hu4
          subst hg
          obtain ⟨x', hx', hr'⟩ := run_split_at_quote x _ u4 r hu4
            (fun e he => huq e (by simp [he]))
          subst hr'
          refine mrun_dead_after_fa _ x' _ ?_
          intro cc hcc
          exact hxw cc (by rw [hx']; exact List.mem_append_right _ hcc)

theorem foldl_iconStep_nomatch (l : List (Str × Str)) (c : Str) (n : Nat)
    (h : ∀ e ∈ l, pycount (pat1 e.1) c = 0 ∧ pycount (pat2 e.1) c = 0) :
    List.foldl iconStep (c, n) l = (c, n) := by
  induction l with
  | nil => rfl
  | cons e t ih =>
    have he := h e (List.mem_cons_self ..)
    have hstep : iconStep (c, n) e = (c, n) :=
      iconStep_of_pycount_zero e (c, n) he.1 he.2
    rw [List.foldl_cons, hstep]
    exact ih (fun d hd => h d (List.mem_cons_of_mem _ hd))

/-! ## No position of the narrow form matches a non-prefix identifier -/

theorem noMatchAll_append_noLt (l : Str) (b : Pat) (x v : Str)
    (hx : ∀ c ∈ x, c ≠ '<') (hv : noMatchAll (.seq (.lit ('<' :: l)) b) v) :
    noMatchAll (.seq (.lit ('<' :: l)) b) (x ++ v) := by
  induction x with
  | nil => exact hv
  | cons c t ih =>
    exact ⟨mrun_seq_lit_head_ne _ _ _ _ (hx c (List.mem_cons_self ..)),
           ih (fun d hd => hx d (List.mem_cons_of_mem _ hd))⟩

theorem noMatchAll_tail5 (l : Str) (b : Pat) :
    noMatchAll (.seq (.lit ('<' :: 'i' :: l)) b) ('"' :: '>' :: '<' :: '/' :: 'i' :: '>' :: []) := by
  refine ⟨mrun_seq_lit_head_ne _ _ _ _ (by decide),
          mrun_seq_lit_head_ne _ _ _ _ (by decide), ?_,
          mrun_seq_lit_head_ne _ _ _ _ (by decide),
          mrun_seq_lit_head_ne _ _ _ _ (by decide),
          mrun_seq_lit_head_ne _ _ _ _ (by decide), trivial⟩
  refine mrun_seq_of_nil _ _ _ ?_
  rw [mrun_lit_cons_eq]
  exact mrun_lit_cons_ne _ _ _ _ (by decide)

theorem noMatchAll_pat1_narrow (k x : Str)
    (hx : ∀ c ∈ x, wsChar c = false ∧ c ≠ '"' ∧ c ≠ '<')
    (hkq : ∀ c ∈ k, c ≠ '"')
    (hk : k.isPrefixOf x = false) :
    noMatchAll (pat1 k) (narrowOf x) := by
  obtain ⟨b, hb⟩ := pat1_shape k
  have hxw : ∀ c ∈ x, wsChar c = false := fun c hc => (hx c hc).1
  have hxlt : ∀ c ∈ x, c ≠ '<' := fun c hc => (hx c hc).2.2
  have hne : ∀ (c : Char) (s : Str), c ≠ '<' → mrun (pat1 k) (c :: s) = [] := by
    intro c s h
    rw [hb]
    exact mrun_seq_lit_head_ne _ _ _ _ h
  have htail : noMatchAll (pat1 k) (x ++ '"' :: '>' :: '<' :: '/' :: 'i' :: '>' :: []) := by
    rw [hb]
    exact noMatchAll_append_noLt _ _ _ _ hxlt (noMatchAll_tail5 _ _)
  unfold narrowOf
  exact ⟨mrun_pat1_head k x _ hxw hkq hk,
         hne 'i' _ (by decide), hne ' ' _ (by decide), hne 'c' _ (by decide),
         hne 'l' _ (by decide), hne 'a' _ (by decide), hne 's' _ (by decide),
         hne 's' _ (by decide), hne '=' _ (by decide), hne '"' _ (by decide),
         hne 'f' _ (by decide), hne 'a' _ (by decide), hne 's' _ (by decide),
         hne ' ' _ (by decide), htail⟩

theorem noMatchAll_pat2_narrow (k x : Str)
    (hx : ∀ c ∈ x, wsChar c = false ∧ c ≠ '"' ∧ c ≠ '<')
    (hkq : ∀ c ∈ k, c ≠ '"')
    (hk : k.isPrefixOf x = false) :
    noMatchAll (pat2 k) (narrowOf x) := by
  obtain ⟨b, hb⟩ := pat2_shape k
  have hxw : ∀ c ∈ x, wsChar c = false := fun c hc => (hx c hc).1
  have hxlt : ∀ c ∈ x, c ≠ '<' := fun c hc => (hx c hc).2.2
  have hne : ∀ (c : Char) (s : Str), c ≠ '<' → mrun (pat2 k) (c :: s) = [] := by
    intro c s h
    rw [hb]
    exact mrun_seq_lit_head_ne _ _ _ _ h
  have htail : noMatchAll (pat2 k) (x ++ '"' :: '>' :: '<' :: '/' :: 'i' :: '>' :: []) := by
    rw [hb]
    exact noMatchAll_append_noLt _ _ _ _ hxlt (noMatchAll_tail5 _ _)
  unfold narrowOf
  exact ⟨mrun_pat2_head k x _ hxw hkq hk,
         hne 'i' _ (by decide), hne ' ' _ (by decide), hne 'c' _ (by decide),
         hne 'l' _ (by decide), hne 'a' _ (by decide), hne 's' _ (by decide),
         hne 's' _ (by decide), hne '=' _ (by decide), hne '"' _ (by decide),
         hne 'f' _ (by decide), hne 'a' _ (by decide), hne 's' _ (by decide),
         hne ' ' _ (by decide), htail⟩

/-- An entry whose identifier is not a prefix of `x` leaves the narrow
form of `x`, and the running count, untouched. -/
theorem iconStep_narrow_not_pre (x : Str) (e : Str × Str) (n : Nat)
    (hx : ∀ c ∈ x, wsChar c = false ∧ c ≠ '"' ∧ c ≠ '<')
    (hkq : ∀ c ∈ e.1, c ≠ '"')
    (hk : e.1.isPrefixOf x = false) :
    iconStep (narrowOf x, n) e = (narrowOf x, n) := by
  refine iconStep_of_pycount_zero e _ ?_ ?_
  · exact pycount_of_noMatchAll _ _ (noMatchAll_pat1_narrow e.1 x hx hkq hk)
  · exact pycount_of_noMatchAll _ _ (noMatchAll_pat2_narrow e.1 x hx hkq hk)

/-- Folding the identifier passes over the narrow form of `x`: the first
entry whose identifier is a prefix of `x` fires and rewrites the whole
file to its emoji plus one space; entries before it leave the file
untouched, and entries after it cannot match the emoji output. -/
theorem foldl_iconStep_narrow (x : Str)
    (hx : ∀ c ∈ x, wsChar c = false ∧ c ≠ '"' ∧ c ≠ '<') :
    ∀ (l : List (Str × Str)),
      (∀ d ∈ l, ∀ c ∈ d.1, c ≠ '"') →
      (∀ d ∈ l, ∀ c ∈ d.2, c ≠ '<') →
      (∀ d ∈ l, d.1.isPrefixOf x = true → iconStep (narrowOf x, 0) d = (d.2 ++ [' '], 1)) →
      (match l.find? (fun d => d.1.isPrefixOf x) with
       | some d => List.foldl iconStep (narrowOf x, 0) l = (d.2 ++ [' '], 1)
       | none => List.foldl iconStep (narrowOf x, 0) l = (narrowOf x, 0)) := by
  intro l
  induction l with
  | nil => intro _ _ _; simp
  | cons d t ih =>
    intro hq hem hhit
    cases hd : d.1.isPrefixOf x with
    | true =>
      simp only [List.find?_cons, hd]
      have hstep := hhit d (List.mem_cons_self ..) hd
      rw [List.foldl_cons, hstep]
      refine foldl_iconStep_noLt t _ ?_
      intro c hc
      rcases List.mem_append.mp hc with h | h
      · exact hem d (List.mem_cons_self ..) c h
      · simp at h
        subst h
        decide
    | false =>
      simp only [List.find?_cons, hd]
      have hstep := iconStep_narrow_not_pre x d 0 hx
        (hq d (List.mem_cons_self ..)) hd
      rw [List.foldl_cons, hstep]
      exact ih (fun e he => hq e (List.mem_cons_of_mem _ he))
        (fun e he => hem e (List.mem_cons_of_mem _ he))
        (fun e he => hhit e (List.mem_cons_of_mem _ he))

/-! ## The same analysis for the styled narrow form -/

theorem noMatchAll_closeTag (l : Str) (b : Pat) :
    noMatchAll (.seq (.lit ('<' :: 'i' :: l)) b) ('<' :: '/' :: 'i' :: '>' :: []) := by
  refine ⟨?_, mrun_seq_lit_head_ne _ _ _ _ (by decide),
          mrun_seq_lit_head_ne _ _ _ _ (by decide),
          mrun_seq_lit_head_ne _ _ _ _ (by decide), trivial⟩
  refine mrun_seq_of_nil _ _ _ ?_
  rw [mrun_lit_cons_eq]
  exact mrun_lit_cons_ne _ _ _ _ (by decide)

theorem noMatchAll_styleTail (l : Str) (b : Pat) :
    noMatchAll (.seq (.lit ('<' :: 'i' :: l)) b)
      ('"' :: ' ' :: 's' :: 't' :: 'y' :: 'l' :: 'e' :: '=' :: '"' ::
       'c' :: 'o' :: 'l' :: 'o' :: 'r' :: ':' :: 'r' :: 'e' :: 'd' :: '"' ::
       '>' :: '<' :: '/' :: 'i' :: '>' :: []) := by
  have h := noMatchAll_append_noLt ('i' :: l) b
    ('"' :: ' ' :: 's' :: 't' :: 'y' :: 'l' :: 'e' :: '=' :: '"' ::
     'c' :: 'o' :: 'l' :: 'o' :: 'r' :: ':' :: 'r' :: 'e' :: 'd' :: '"' :: '>' :: [])
    ('<' :: '/' :: 'i' :: '>' :: []) (by decide) (noMatchAll_closeTag l b)
  exact h

theorem noMatchAll_pat1_styled (k x : Str)
    (hx : ∀ c ∈ x, wsChar c = false ∧ c ≠ '"' ∧ c ≠ '<')
    (hkq : ∀ c ∈ k, c ≠ '"')
    (hk : k.isPrefixOf x = false) :
    noMatchAll (pat1 k) (styledOf x) := by
  obtain ⟨b, hb⟩ := pat1_shape k
  have hxw : ∀ c ∈ x, wsChar c = false := fun c hc => (hx c hc).1
  have hxlt : ∀ c ∈ x, c ≠ '<' := fun c hc => (hx c hc).2.2
  have hne : ∀ (c : Char) (s : Str), c ≠ '<' → mrun (pat1 k) (c :: s) = [] := by
    intro c s h
    rw [hb]
    exact mrun_seq_lit_head_ne _ _ _ _ h
  have htail : noMatchAll (pat1 k)
      (x ++ '"' :: ' ' :: 's' :: 't' :: 'y' :: 'l' :: 'e' :: '=' :: '"' ::
       'c' :: 'o' :: 'l' :: 'o' :: 'r' :: ':' :: 'r' :: 'e' :: 'd' :: '"' ::
       '>' :: '<' :: '/' :: 'i' :: '>' :: []) := by
    rw [hb]
    exact noMatchAll_append_noLt _ _ _ _ hxlt (noMatchAll_styleTail _ _)
  unfold styledOf
  exact ⟨mrun_pat1_head k x _ hxw hkq hk,
         hne 'i' _ (by decide), hne ' ' _ (by decide), hne 'c' _ (by decide),
         hne 'l' _ (by decide), hne 'a' _ (by decide), hne 's' _ (by decide),
         hne 's' _ (by decide), hne '=' _ (by decide), hne '"' _ (by decide),
         hne 'f' _ (by decide), hne 'a' _ (by decide), hne 's' _ (by decide),
         hne ' ' _ (by decide), htail⟩

theorem noMatchAll_pat2_styled (k x : Str)
    (hx : ∀ c ∈ x, wsChar c = false ∧ c ≠ '"' ∧ c ≠ '<')
    (hkq : ∀ c ∈ k, c ≠ '"')
    (hk : k.isPrefixOf x = false) :
    noMatchAll (pat2 k) (styledOf x) := by
  obtain ⟨b, hb⟩ := pat2_shape k
  have hxw : ∀ c ∈ x, wsChar c = false := fun c hc => (hx c hc).1
  have hxlt : ∀ c ∈ x, c ≠ '<' := fun c hc => (hx c hc).2.2
  have hne : ∀ (c : Char) (s : Str), c ≠ '<' → mrun (pat2 k) (c :: s) = [] := by
    intro c s h
    rw [hb]
    exact mrun_seq_lit_head_ne _ _ _ _ h
  have htail : noMatchAll (pat2 k)
      (x ++ '"' :: ' ' :: 's' :: 't' :: 'y' :: 'l' :: 'e' :: '=' :: '"' ::
       'c' :: 'o' :: 'l' :: 'o' :: 'r' :: ':' :: 'r' :: 'e' :: 'd' :: '"' ::
       '>' :: '<' :: '/' :: 'i' :: '>' :: []) := by
    rw [hb]
    exact noMatchAll_append_noLt _ _ _ _ hxlt (noMatchAll_styleTail _ _)
  unfold styledOf
  exact ⟨mrun_pat2_head k x _ hxw hkq hk,
         hne 'i' _ (by decide), hne ' ' _ (by decide), hne 'c' _ (by decide),
         hne 'l' _ (by decide), hne 'a' _ (by decide), hne 's' _ (by decide),
         hne 's' _ (by decide), hne '=' _ (by decide), hne '"' _ (by decide),
         hne 'f' _ (by decide), hne 'a' _ (by decide), hne 's' _ (by decide),
         hne ' ' _ (by decide), htail⟩

/-- An entry whose identifier is not a prefix of `x` leaves the styled
narrow form of `x`, and the running count, untouched. -/
theorem iconStep_styled_not_pre (x : Str) (e : Str × Str) (n : Nat)
    (hx : ∀ c ∈ x, wsChar c = false ∧ c ≠ '"' ∧ c ≠ '<')
    (hkq : ∀ c ∈ e.1, c ≠ '"')
    (hk : e.1.isPrefixOf x = false) :
    iconStep (styledOf x, n) e = (styledOf x, n) := by
  refine iconStep_of_pycount_zero e _ ?_ ?_
  · exact pycount_of_noMatchAll _ _ (noMatchAll_pat1_styled e.1 x hx hkq hk)
  · exact pycount_of_noMatchAll _ _ (noMatchAll_pat2_styled e.1 x hx hkq hk)

/-- Folding the identifier passes over any file `c₀`, given that every
entry either misses it (when its identifier is not a prefix of `x`) or
rewrites it whole to its emoji plus one space: the first entry whose
identifier is a prefix of `x` decides the output. -/
theorem foldl_iconStep_firstHit (x c₀ : Str) :
    ∀ (l : List (Str × Str)),
      (∀ d ∈ l, d.1.isPrefixOf x = false → iconStep (c₀, 0) d = (c₀, 0)) →
      (∀ d ∈ l, ∀ c ∈ d.2, c ≠ '<') →
      (∀ d ∈ l, d.1.isPrefixOf x = true → iconStep (c₀, 0) d = (d.2 ++ [' '], 1)) →
      (match l.find? (fun d => d.1.isPrefixOf x) with
       | some d => List.foldl iconStep (c₀, 0) l = (d.2 ++ [' '], 1)
       | none => List.foldl iconStep (c₀, 0) l = (c₀, 0)) := by
  intro l
  induction l with
  | nil => intro _ _ _; simp
  | cons d t ih =>
    intro hmiss hem hhit
    cases hd : d.1.isPrefixOf x with
    | true =>
      simp only [List.find?_cons, hd]
      have hstep := hhit d (List.mem_cons_self ..) hd
      rw [List.foldl_cons, hstep]
      refine foldl_iconStep_noLt t _ ?_
      intro c hc
      rcases List.mem_append.mp hc with h | h
      · exact hem d (List.mem_cons_self ..) c h
      · simp at h
        subst h
        decide
    | false =>
      simp only [List.find?_cons, hd]
      have hstep := hmiss d (List.mem_cons_self ..) hd
      rw [List.foldl_cons, hstep]
      exact ih (fun e he => hmiss e (List.mem_cons_of_mem _ he))
        (fun e he => hem e (List.mem_cons_of_mem _ he))
        (fun e he => hhit e (List.mem_cons_of_mem _ he))

/-! ## Decided facts about the mapping table -/

/-- Every identifier in the table is plain text: no whitespace, no `"`,
no `<`. -/
theorem wfKeys : ∀ e ∈ ICON_MAP, ∀ c ∈ e.1, wsChar c = false ∧ c ≠ '"' ∧ c ≠ '<' := by decide

/-- No replacement text in the table contains `<`. -/
theorem emNoLt : ∀ e ∈ ICON_MAP, ∀ c ∈ e.2, c ≠ '<' := by decide

/-- Whenever an identifier of the table is a prefix of an identifier
`x` of the table, its pass rewrites the narrow form of `x` to its own
emoji plus one space, counting exactly one substitution. -/
theorem hitFacts : ∀ e ∈ ICON_MAP, ∀ d ∈ ICON_MAP,
    d.1.isPrefixOf e.1 = true → iconStep (narrowOf e.1, 0) d = (d.2 ++ [' '], 1) := by decide

/-- The styled analogue of `hitFacts`: whenever an identifier of the
table is a prefix of an identifier `x` of the table, its pass rewrites
the styled narrow form of `x` to its own emoji plus one space, counting
exactly one substitution. -/
theorem hitFactsStyled : ∀ e ∈ ICON_MAP, ∀ d ∈ ICON_MAP,
    d.1.isPrefixOf e.1 = true → iconStep (styledOf e.1, 0) d = (d.2 ++ [' '], 1) := by decide

/-! ## The rewrite on a narrow-form file -/

/-- On the narrow form of `x`, the whole generic loop plus the spinner
special case produce the emoji of the first table entry whose identifier
is a prefix of `x`, followed by one space, with count 1. -/
theorem processContent_narrow (x : Str)
    (hx : ∀ c ∈ x, wsChar c = false ∧ c ≠ '"' ∧ c ≠ '<')
    (hhit : ∀ d ∈ ICON_MAP, d.1.isPrefixOf x = true →
      iconStep (narrowOf x, 0) d = (d.2 ++ [' '], 1))
    (d : Str × Str)
    (hfind : ICON_MAP.find? (fun d => d.1.isPrefixOf x) = some d) :
    processContent (narrowOf x) = (d.2 ++ [' '], 1) := by
  have hq : ∀ d ∈ ICON_MAP, ∀ c ∈ d.1, c ≠ '"' := fun d hd c hc => (wfKeys d hd c hc).2.1
  have h := foldl_iconStep_narrow x hx ICON_MAP hq emNoLt hhit
  rw [hfind] at h
  replace h : List.foldl iconStep (narrowOf x, 0) ICON_MAP = (d.2 ++ [' '], 1) := h
  have hd : d ∈ ICON_MAP := List.mem_of_find?_eq_some hfind
  have hdlt : ∀ c ∈ d.2 ++ [' '], c ≠ '<' := by
    intro c hc
    rcases List.mem_append.mp hc with h' | h'
    · exact emNoLt d hd c h'
    · simp at h'
      subst h'
      decide
  simp only [processContent]
  rw [h, pysub_spinner_noLt _ _ hdlt]

/-- On the styled narrow form of `x`, the whole generic loop plus the
spinner special case produce the emoji of the first table entry whose
identifier is a prefix of `x`, followed by one space, with count 1. -/
theorem processContent_styled (x : Str)
    (hx : ∀ c ∈ x, wsChar c = false ∧ c ≠ '"' ∧ c ≠ '<')
    (hhit : ∀ d ∈ ICON_MAP, d.1.isPrefixOf x = true →
      iconStep (styledOf x, 0) d = (d.2 ++ [' '], 1))
    (d : Str × Str)
    (hfind : ICON_MAP.find? (fun d => d.1.isPrefixOf x) = some d) :
    processContent (styledOf x) = (d.2 ++ [' '], 1) := by
  have hq : ∀ d ∈ ICON_MAP, ∀ c ∈ d.1, c ≠ '"' := fun d hd c hc => (wfKeys d hd c hc).2.1
  have hmiss : ∀ d ∈ ICON_MAP, d.1.isPrefixOf x = false →
      iconStep (styledOf x, 0) d = (styledOf x, 0) :=
    fun d hd hnp => iconStep_styled_not_pre x d 0 hx (hq d hd) hnp
  have h := foldl_iconStep_firstHit x (styledOf x) ICON_MAP hmiss emNoLt hhit
  rw [hfind] at h
  replace h : List.foldl iconStep (styledOf x, 0) ICON_MAP = (d.2 ++ [' '], 1) := h
  have hd : d ∈ ICON_MAP := List.mem_of_find?_eq_some hfind
  have hdlt : ∀ c ∈ d.2 ++ [' '], c ≠ '<' := by
    intro c hc
    rcases List.mem_append.mp hc with h' | h'
    · exact emNoLt d hd c h'
    · simp at h'
      subst h'
      decide
  simp only [processContent]
  rw [h, pysub_spinner_noLt _ _ hdlt]

/-- Text without `<` (such as pure emoji output) is a fixed point of the
whole rewrite, with zero substitutions. -/
theorem processContent_noLt (y : Str) (hy : ∀ c ∈ y, c ≠ '<') :
    processContent y = (y, 0) := by
  simp only [processContent]
  rw [foldl_iconStep_noLt ICON_MAP (y, 0) hy, pysub_spinner_noLt _ _ hy]

theorem isPrefixOf_self (l : Str) : l.isPrefixOf l = true := by
  induction l with
  | nil => rfl
  | cons c t ih => simp [List.isPrefixOf, ih]

/-- The per-identifier result of one rewrite pass over a narrow-form
file, for every identifier of the table: the file becomes the emoji of
the first table entry whose identifier is a prefix of it, plus one
space, with count 1; a second pass leaves that output unchanged with
count 0. -/
theorem narrow_roundtrip : ∀ e ∈ ICON_MAP, ∃ d : Str × Str,
    ICON_MAP.find? (fun d => d.1.isPrefixOf e.1) = some d ∧
    processContent (narrowOf e.1) = (d.2 ++ [' '], 1) ∧
    processContent (d.2 ++ [' ']) = (d.2 ++ [' '], 0) := by
  intro e he
  cases hfind : ICON_MAP.find? (fun d => d.1.isPrefixOf e.1) with
  | none =>
    exfalso
    have := List.find?_eq_none.mp hfind e he
    simp [isPrefixOf_self] at this
  | some d =>
    have hd : d ∈ ICON_MAP := List.mem_of_find?_eq_some hfind
    have hout : ∀ c ∈ d.2 ++ [' '], c ≠ '<' := by
      intro c hc
      rcases List.mem_append.mp hc with h | h
      · exact emNoLt d hd c h
      · simp at h
        subst h
        decide
    refine ⟨d, rfl, ?_, ?_⟩
    · exact processContent_narrow e.1 (wfKeys e he)
        (fun d' hd' => hitFacts e he d' hd') d hfind
    · exact processContent_noLt _ hout

/-! ## The per-file operation with its `try`/`except` boundary

`replace_fontawesome_in_file` reads the file, rewrites the text, and
writes back only when the text changed.  Any exception raised inside the
`try` block — by the read or by the write — is caught by the single
`except` clause, which prints `❌ Error processing {path}: {e}` and
returns 0.  The filesystem is abstracted by the outcome of the read
(`Except` an error message, the decoded text) and of the write. -/

/-- Outcome of one `replace_fontawesome_in_file` call. -/
structure FileOutcome where
  count : Nat
  written : Option Str
  errorMsg : Option Str
deriving DecidableEq

/-- The message printed by the `except` clause. -/
def errText (path msg : Str) : Str :=
  str "❌ Error processing " ++ path ++ str ": " ++ msg

/-- The body of the `try` block: read, rewrite, write back if changed,
return the change count; exceptions propagate. -/
def tryBody (content? : Except Str Str) (writeRes : Except Str Unit) :
    Except Str (Nat × Option Str) :=
  match content? with
  | .error e => .error e
  | .ok content =>
    let r := processContent content
    if r.1 ≠ content then
      match writeRes with
      | .error e => .error e
      | .ok _ => .ok (r.2, some r.1)
    else .ok (0, none)

/-- `replace_fontawesome_in_file`: the `try` body wrapped in the
`except Exception` handler. -/
def replace_fontawesome_in_file (path : Str) (content? : Except Str Str)
    (writeRes : Except Str Unit) : FileOutcome :=
  match tryBody content? writeRes with
  | .ok (n, w) => ⟨n, w, none⟩
  | .error e => ⟨0, none, some (errText path e)⟩

/-! ## `main`: locate `.ejs` files, exclude backups, process, summarise -/

/-- Python's substring test `needle in hay`. -/
def containsSub (needle : Str) : Str → Bool
  | [] => needle.isPrefixOf []
  | c :: t => needle.isPrefixOf (c :: t) || containsSub needle t

/-- Lexicographic comparison used to model `sorted(ejs_files)`. -/
def lexLe : Str → Str → Bool
  | [], _ => true
  | _ :: _, [] => false
  | a :: as, b :: bs => if a = b then lexLe as bs else decide (a < b)

def insertSorted (a : Str) : List Str → List Str
  | [] => [a]
  | b :: l => if lexLe a b then a :: b :: l else b :: insertSorted a l

def sortPaths : List Str → List Str
  | [] => []
  | a :: l => insertSorted a (sortPaths l)

/-- The filesystem as `main` sees it: whether the `views` directory
exists, the paths produced by `rglob('*.ejs')`, and the outcome of
reading and of writing each path. -/
structure FS where
  viewsExists : Bool
  ejsFiles : List Str
  readRes : Str → Except Str Str
  writeRes : Str → Except Str Unit

/-- The candidate list: `rglob` results with every path containing the
substring `backup` removed, in sorted processing order. -/
def candidates (fs : FS) : List Str :=
  sortPaths (fs.ejsFiles.filter (fun f => !(containsSub (str "backup") f)))

inductive MainResult where
  | noViews : MainResult
  | done : List (Str × FileOutcome) → Nat → Nat → MainResult

/-- `main`.  If the views directory is missing it prints a message and
returns early; otherwise it processes every candidate file and
accumulates `total_changes` and `files_modified` over the files whose
count is positive. -/
def main (fs : FS) : MainResult :=
  if fs.viewsExists then
    let files := candidates fs
    let reports := files.map
      (fun p => (p, replace_fontawesome_in_file p (fs.readRes p) (fs.writeRes p)))
    let totals := reports.foldl
      (fun (t : Nat × Nat) r => if 0 < r.2.count then (t.1 + r.2.count, t.2 + 1) else t)
      (0, 0)
    .done reports totals.1 totals.2
  else .noViews

/-- The paths `main` touches (reads or writes): none on the early exit,
exactly the candidate list otherwise. -/
def touched (fs : FS) : List Str :=
  match main fs with
  | .noViews => []
  | .done reports _ _ => reports.map (·.1)

/-- Path built from segments, separated by `/`. -/
def joinPath : List Str → Str
  | [] => []
  | [s] => s
  | s :: rest => s ++ '/' :: joinPath rest

/-! ## Lemmas about substring search, sorting and path joining -/

theorem isPrefixOf_append_self (l t : Str) : l.isPrefixOf (l ++ t) = true := by
  induction l with
  | nil => simp [List.isPrefixOf]
  | cons c l' ih => simp [List.isPrefixOf, ih]

theorem containsSub_of_isPre (n h : Str) (hp : n.isPrefixOf h = true) :
    containsSub n h = true := by
  cases h with
  | nil => simpa [containsSub] using hp
  | cons c t => simp [containsSub, hp]

theorem containsSub_append_left (n : Str) (u t : Str) (h : containsSub n t = true) :
    containsSub n (u ++ t) = true := by
  induction u with
  | nil => simpa using h
  | cons c u' ih => simp [containsSub, ih]

theorem containsSub_self_append (n t : Str) : containsSub n (n ++ t) = true :=
  containsSub_of_isPre n (n ++ t) (isPrefixOf_append_self n t)

theorem containsSub_joinPath (segs : List Str) :
    str "backup" ∈ segs → containsSub (str "backup") (joinPath segs) = true := by
  induction segs with
  | nil => intro h; cases h
  | cons s rest ih =>
    intro h
    rcases List.mem_cons.mp h with heq | hrest
    · cases rest with
      | nil =>
        unfold joinPath
        rw [← heq]
        exact containsSub_of_isPre _ _ (isPrefixOf_self _)
      | cons r rest' =>
        unfold joinPath
        rw [← heq]
        exact containsSub_self_append _ _
    · cases rest with
      | nil => cases hrest
      | cons r rest' =>
        unfold joinPath
        have heq2 : s ++ '/' :: joinPath (r :: rest') = (s ++ ['/']) ++ joinPath (r :: rest') := by
          simp
        rw [heq2]
        exact containsSub_append_left _ _ _ (ih hrest)

theorem mem_insertSorted (a b : Str) (l : List Str) (h : b ∈ insertSorted a l) :
    b = a ∨ b ∈ l := by
  induction l with
  | nil => simpa [insertSorted] using h
  | cons c t ih =>
    unfold insertSorted at h
    by_cases hle : lexLe a c = true
    · rw [if_pos hle] at h
      rcases List.mem_cons.mp h with h' | h'
      · exact Or.inl h'
      · exact Or.inr h'
    · rw [if_neg hle] at h
      rcases List.mem_cons.mp h with h' | h'
      · exact Or.inr (h' ▸ List.mem_cons_self ..)
      · rcases ih h' with h'' | h''
        · exact Or.inl h''
        · exact Or.inr (List.mem_cons_of_mem _ h'')

theorem mem_sortPaths (b : Str) (l : List Str) (h : b ∈ sortPaths l) : b ∈ l := by
  induction l with
  | nil => simp [sortPaths] at h
  | cons c t ih =>
    unfold sortPaths at h
    rcases mem_insertSorted c b _ h with h' | h'
    · exact h' ▸ List.mem_cons_self ..
    · exact List.mem_cons_of_mem _ (ih h')

/-- What `main` touches when the views directory exists: exactly the
candidate list, every file of it, failures or not. -/
theorem touched_of_views (fs : FS) (h : fs.viewsExists = true) :
    touched fs = candidates fs := by
  unfold touched main
  rw [if_pos h]
  simp only [List.map_map]
  rw [show ((fun x : Str × FileOutcome => x.1) ∘
      fun p => (p, replace_fontawesome_in_file p (fs.readRes p) (fs.writeRes p))) =
      fun p => p from rfl]
  simp

theorem main_noViews (fs : FS) (h : fs.viewsExists = false) :
    main fs = .noViews ∧ touched fs = [] := by
  unfold touched main
  rw [if_neg (by simp [h])]
  exact ⟨rfl, rfl⟩

theorem not_mem_candidates_of_backup (fs : FS) (p : Str)
    (h : containsSub (str "backup") p = true) : p ∉ candidates fs := by
  intro hmem
  have := mem_sortPaths _ _ hmem
  have hf := (List.mem_filter.mp this).2
  rw [h] at hf
  simp at hf

/-! ## Evaluation of the rewrite on the concrete example inputs -/

/-- Stepwise evaluation of `processContent` when exactly one table entry
fires: the entries before it find nothing, the entry rewrites the whole
file, and nothing after it (nor the spinner pass) can match the output. -/
theorem processContent_via (content afterHit : Str) (pre post : List (Str × Str))
    (e : Str × Str) (n : Nat)
    (hmap : ICON_MAP = pre ++ e :: post)
    (hpre : ∀ d ∈ pre, pycount (pat1 d.1) content = 0 ∧ pycount (pat2 d.1) content = 0)
    (hhit : iconStep (content, 0) e = (afterHit, n))
    (hafter : ∀ c ∈ afterHit, c ≠ '<') :
    processContent content = (afterHit, n) := by
  simp only [processContent]
  rw [hmap, List.foldl_append, foldl_iconStep_nomatch pre content 0 hpre,
      List.foldl_cons, hhit, foldl_iconStep_noLt post _ hafter]
  show (pysub spinnerPat (str "⏳") afterHit, n) = (afterHit, n)
  rw [pysub_spinner_noLt _ _ hafter]

/-- Evaluation of `processContent` when no generic entry matches and
only the spinner special case can rewrite. -/
theorem processContent_nomatch_spin (content out : Str)
    (hall : ∀ e ∈ ICON_MAP, pycount (pat1 e.1) content = 0 ∧ pycount (pat2 e.1) content = 0)
    (hspin : pysub spinnerPat (str "⏳") content = out) :
    processContent content = (out, 0) := by
  simp only [processContent]
  rw [foldl_iconStep_nomatch ICON_MAP content 0 hall]
  show (pysub spinnerPat (str "⏳") content, 0) = (out, 0)
  rw [hspin]

/-- The narrow form of a table identifier rewrites to the emoji of the
first entry whose identifier is a prefix of it. -/
theorem processNarrowKey (e : Str × Str) (he : e ∈ ICON_MAP) (d : Str × Str)
    (hfind : ICON_MAP.find? (fun d => d.1.isPrefixOf e.1) = some d) :
    processContent (narrowOf e.1) = (d.2 ++ [' '], 1) :=
  processContent_narrow e.1 (wfKeys e he) (hitFacts e he) d hfind

/-- `<i class="fas fa-trash"></i>` becomes `🗑️ ` with count 1. -/
theorem trash_eval :
    processContent (str "<i class=\"fas fa-trash\"></i>") = (str "🗑️ ", 1) :=
  processNarrowKey (str "fa-trash", str "🗑️") (by decide)
    (str "fa-trash", str "🗑️") (by decide)

/-- `<i class="fas fa-save" style="color:red"></i>` becomes `💾 ` with
count 1. -/
theorem save_style_eval :
    processContent (str "<i class=\"fas fa-save\" style=\"color:red\"></i>") = (str "💾 ", 1) := by
  refine processContent_via _ _ (ICON_MAP.take 13) (ICON_MAP.drop 14)
    (str "fa-save", str "💾") 1 (by decide) (by decide) (by decide) (by decide)

/-- The narrow trash element followed by trailing whitespace: the match
extends over the whitespace and the output is exactly `🗑️ `, count 1. -/
theorem trash_ws_eval :
    processContent (str "<i class=\"fas fa-trash\"></i>  \n") = (str "🗑️ ", 1) := by
  refine processContent_via _ _ (ICON_MAP.take 15) (ICON_MAP.drop 16)
    (str "fa-trash", str "🗑️") 1 (by decide) (by decide) (by decide) (by decide)

/-- `<i class="fas fa-spinner fa-spin"></i>` is rewritten by the generic
`fa-spinner` pass (pattern 1, with `fa-spin` as an extra class token) to
`⏳ ` — with a trailing space — and count 1.  The spinner special case
never sees it. -/
theorem spin_exact_eval :
    processContent (str "<i class=\"fas fa-spinner fa-spin\"></i>") = (str "⏳ ", 1) := by
  refine processContent_via _ _ (ICON_MAP.take 23) (ICON_MAP.drop 24)
    (str "fa-spinner", str "⏳") 1 (by decide) (by decide) (by decide) (by decide)

/-- `<i class="fas fa-spinner fa-spin" id="x"></i>`: the extra attribute
defeats both generic patterns, but the special-case pattern's `[^>]*`
still matches, so the file is rewritten to `⏳` (no trailing space) while
the returned count stays 0. -/
theorem spin_id_eval :
    processContent (str "<i class=\"fas fa-spinner fa-spin\" id=\"x\"></i>") = (str "⏳", 0) := by
  refine processContent_nomatch_spin _ _ (by decide) (by decide)

/-! ## Per-file outcomes -/

theorem replace_read_error (path e : Str) (w : Except Str Unit) :
    replace_fontawesome_in_file path (.error e) w = ⟨0, none, some (errText path e)⟩ := rfl

theorem replace_write_error (path content e : Str)
    (h : (processContent content).1 ≠ content) :
    replace_fontawesome_in_file path (.ok content) (.error e) =
      ⟨0, none, some (errText path e)⟩ := by
  simp only [replace_fontawesome_in_file, tryBody]
  rw [if_pos h]

theorem replace_ok (path content out : Str) (n : Nat)
    (hpc : processContent content = (out, n)) (hne : out ≠ content) :
    replace_fontawesome_in_file path (.ok content) (.ok ()) = ⟨n, some out, none⟩ := by
  simp only [replace_fontawesome_in_file, tryBody, hpc]
  rw [if_pos hne]

theorem replace_nochange (path content : Str) (w : Except Str Unit)
    (h : (processContent content).1 = content) :
    replace_fontawesome_in_file path (.ok content) w = ⟨0, none, none⟩ := by
  simp only [replace_fontawesome_in_file, tryBody]
  rw [if_neg (by simp [h])]

/-- Every pattern the per-file operation ever applies: the two generic
patterns of each table entry, plus the spinner special case. -/
def allPats : List Pat :=
  ICON_MAP.flatMap (fun e => [pat1 e.1, pat2 e.1]) ++ [spinnerPat]

/-! ## The claims -/

/-- C1 (counterexample): the universal part of the claim fails for the
known identifier `fa-times-circle`, whose mapped emoji is `❌`: its
narrow-form file is rewritten to `✖️ ` — the emoji of the earlier entry
`fa-times`, a proper prefix — not to the mapped `❌ `. -/
theorem claim_C1_counterexample :
    (str "fa-times-circle", str "❌") ∈ ICON_MAP ∧
    processContent (narrowOf (str "fa-times-circle")) = (str "✖️ ", 1) ∧
    (str "✖️ " : Str) ≠ str "❌ " := by
  refine ⟨by decide, ?_, by decide⟩
  exact processNarrowKey (str "fa-times-circle", str "❌") (by decide)
    (str "fa-times", str "✖️") (by decide)

/-- C1 (amended): a file whose content is a single inline icon element in
the narrow form — with or without the example style attribute — is
rewritten, whole match plus trailing whitespace, to the emoji of the
*first* table entry whose identifier is a prefix of the written
identifier, followed by exactly one space, with substitution count 1.
When no earlier entry's identifier is a proper prefix this is the mapped
emoji: in particular `<i class="fas fa-trash"></i>` becomes `🗑️ ` (also
with trailing whitespace, which the match absorbs) and
`<i class="fas fa-save" style="color:red"></i>` becomes `💾 `, each with
count 1. -/
theorem claim_C1_amended :
    (∀ e ∈ ICON_MAP, ∃ d : Str × Str,
      ICON_MAP.find? (fun d => d.1.isPrefixOf e.1) = some d ∧
      processContent (narrowOf e.1) = (d.2 ++ [' '], 1) ∧
      processContent (styledOf e.1) = (d.2 ++ [' '], 1)) ∧
    processContent (str "<i class=\"fas fa-trash\"></i>") = (str "🗑️ ", 1) ∧
    replace_fontawesome_in_file (str "views/a.ejs")
        (.ok (str "<i class=\"fas fa-trash\"></i>")) (.ok ()) =
      ⟨1, some (str "🗑️ "), none⟩ ∧
    processContent (str "<i class=\"fas fa-save\" style=\"color:red\"></i>") = (str "💾 ", 1) ∧
    processContent (str "<i class=\"fas fa-trash\"></i>  \n") = (str "🗑️ ", 1) := by
  refine ⟨?_, trash_eval, replace_ok _ _ _ _ trash_eval (by decide),
    save_style_eval, trash_ws_eval⟩
  intro e he
  cases hfind : ICON_MAP.find? (fun d => d.1.isPrefixOf e.1) with
  | none =>
    exfalso
    have := List.find?_eq_none.mp hfind e he
    simp [isPrefixOf_self] at this
  | some d =>
    refine ⟨d, rfl, ?_, ?_⟩
    · exact processContent_narrow e.1 (wfKeys e he) (hitFacts e he) d hfind
    · exact processContent_styled e.1 (wfKeys e he) (hitFactsStyled e he) d hfind

/-- C1 (witness): the amended claim applied to the `fa-save` entry, which
has no earlier prefix entry, so the output is the mapped `💾 `. -/
theorem claim_C1_witness :
    (str "fa-save", str "💾") ∈ ICON_MAP ∧
    (∃ d : Str × Str,
      ICON_MAP.find? (fun d => d.1.isPrefixOf (str "fa-save")) = some d ∧
      processContent (narrowOf (str "fa-save")) = (d.2 ++ [' '], 1) ∧
      processContent (styledOf (str "fa-save")) = (d.2 ++ [' '], 1)) :=
  ⟨by decide, claim_C1_amended.1 (str "fa-save", str "💾") (by decide)⟩

/-- C2 (counterexample): for the known identifier `fa-users`, whose
mapped replacement is `👥`, one rewrite of the narrow single-token form
produces `👤 ` — the emoji of the earlier entry `fa-user`, whose
identifier is a proper prefix — not the mapped replacement `👥 `. -/
theorem claim_C2_counterexample :
    (str "fa-users", str "👥") ∈ ICON_MAP ∧
    processContent (narrowOf (str "fa-users")) = (str "👤 ", 1) ∧
    (str "👤 " : Str) ≠ str "👥 " := by
  refine ⟨by decide, ?_, by decide⟩
  exact processNarrowKey (str "fa-users", str "👥") (by decide)
    (str "fa-user", str "👤") (by decide)

/-- C2 (amended): for every file containing exactly one instance of a
known identifier in the narrow single-token class form, one rewrite
yields the replacement of the *first* table entry whose identifier is a
prefix of that identifier (the entry itself when no earlier entry's
identifier is a prefix of it), followed by a single space, with
substitution count 1; a second rewrite of the resulting file yields the
same file with substitution count 0. -/
theorem claim_C2_amended : ∀ e ∈ ICON_MAP, ∃ d : Str × Str,
    ICON_MAP.find? (fun d => d.1.isPrefixOf e.1) = some d ∧
    processContent (narrowOf e.1) = (d.2 ++ [' '], 1) ∧
    processContent (d.2 ++ [' ']) = (d.2 ++ [' '], 0) :=
  narrow_roundtrip

/-- C2 (witness): the amended claim applied to the `fa-trash` entry. -/
theorem claim_C2_witness :
    (str "fa-trash", str "🗑️") ∈ ICON_MAP ∧
    (∃ d : Str × Str,
      ICON_MAP.find? (fun d => d.1.isPrefixOf (str "fa-trash")) = some d ∧
      processContent (narrowOf (str "fa-trash")) = (d.2 ++ [' '], 1) ∧
      processContent (d.2 ++ [' ']) = (d.2 ++ [' '], 0)) :=
  ⟨by decide, claim_C2_amended (str "fa-trash", str "🗑️") (by decide)⟩

/-- C3 (counterexample): on input `<i class="fas fa-spinner fa-spin"></i>`
the element is *not* replaced by the dedicated spinner glyph with no
trailing space: the generic `fa-spinner` pass fires first and leaves
`⏳ ` — with a trailing space — so the special-case pass never applies. -/
theorem claim_C3_counterexample :
    processContent (str "<i class=\"fas fa-spinner fa-spin\"></i>") = (str "⏳ ", 1) ∧
    (str "⏳ " : Str) ≠ str "⏳" :=
  ⟨spin_exact_eval, by decide⟩

/-- C3 (amended): an element whose class attribute is exactly
`fas fa-spinner fa-spin` is replaced by the spinner glyph *with* a
trailing space (count 1) by the generic `fa-spinner` pass whenever that
pass matches it; the special-case pass replaces it by `⏳` with no
trailing space only when the generic passes did not match — e.g. when an
extra attribute defeats them. -/
theorem claim_C3_amended :
    processContent (str "<i class=\"fas fa-spinner fa-spin\"></i>") = (str "⏳ ", 1) ∧
    processContent (str "<i class=\"fas fa-spinner fa-spin\" id=\"x\"></i>") = (str "⏳", 0) :=
  ⟨spin_exact_eval, spin_id_eval⟩

/-- C4 (counterexample): a write failure after a successful read does
*not* propagate: the per-file `except` clause catches it, reports the
path with the underlying message, and the call returns count 0. -/
theorem claim_C4_counterexample :
    replace_fontawesome_in_file (str "views/a.ejs")
        (.ok (str "<i class=\"fas fa-trash\"></i>")) (.error (str "disk full")) =
      ⟨0, none, some (errText (str "views/a.ejs") (str "disk full"))⟩ := by
  refine replace_write_error _ _ _ ?_
  rw [trash_eval]
  decide

/-- C4 (amended): if writing the new content back fails after a
successful read, the error *is* caught at the per-file boundary exactly
like a read error: it is reported with the file's path and the
underlying message, the call returns substitution count 0 for that file,
and the run still processes every candidate file. -/
theorem claim_C4_amended :
    (∀ path content e : Str, (processContent content).1 ≠ content →
      replace_fontawesome_in_file path (.ok content) (.error e) =
        ⟨0, none, some (errText path e)⟩) ∧
    (∀ fs : FS, fs.viewsExists = true → touched fs = candidates fs) :=
  ⟨fun path content e h => replace_write_error path content e h, touched_of_views⟩

/-- C4 (witness): the amended claim applied to a concrete failing
write and a concrete filesystem. -/
theorem claim_C4_witness :
    replace_fontawesome_in_file (str "p.ejs")
        (.ok (str "<i class=\"fas fa-trash\"></i>")) (.error (str "boom")) =
      ⟨0, none, some (errText (str "p.ejs") (str "boom"))⟩ ∧
    touched ⟨true, [str "p.ejs"], fun _ => .error [], fun _ => .ok ()⟩ =
      candidates ⟨true, [str "p.ejs"], fun _ => .error [], fun _ => .ok ()⟩ := by
  constructor
  · exact claim_C4_amended.1 _ _ _ (by rw [trash_eval]; decide)
  · exact claim_C4_amended.2 _ rfl

/-- C5: a failing read or decode is caught at the single-file boundary:
the call returns count 0 and reports a message containing both the
offending path and the underlying message; and the run processes every
candidate file regardless, instead of aborting. -/
theorem claim_C5 :
    (∀ path e : Str, ∀ w : Except Str Unit,
      replace_fontawesome_in_file path (.error e) w = ⟨0, none, some (errText path e)⟩ ∧
      containsSub path (errText path e) = true ∧
      containsSub e (errText path e) = true) ∧
    (∀ fs : FS, fs.viewsExists = true → touched fs = candidates fs) := by
  constructor
  · intro path e w
    refine ⟨rfl, ?_, ?_⟩
    · unfold errText
      rw [List.append_assoc, List.append_assoc]
      exact containsSub_append_left _ _ _ (containsSub_self_append _ _)
    · unfold errText
      exact containsSub_append_left _ _ _ (containsSub_of_isPre _ _ (isPrefixOf_self e))
  · exact touched_of_views

/-- C5 (witness): the claim applied to a concrete failing read and a
concrete filesystem. -/
theorem claim_C5_witness :
    (replace_fontawesome_in_file (str "views/x.ejs") (.error (str "bad utf8")) (.ok ()) =
      ⟨0, none, some (errText (str "views/x.ejs") (str "bad utf8"))⟩ ∧
      containsSub (str "views/x.ejs") (errText (str "views/x.ejs") (str "bad utf8")) = true ∧
      containsSub (str "bad utf8") (errText (str "views/x.ejs") (str "bad utf8")) = true) ∧
    touched ⟨true, [str "views/x.ejs"], fun _ => .error (str "bad utf8"), fun _ => .ok ()⟩ =
      candidates ⟨true, [str "views/x.ejs"], fun _ => .error (str "bad utf8"), fun _ => .ok ()⟩ :=
  ⟨claim_C5.1 (str "views/x.ejs") (str "bad utf8") (.ok ()), claim_C5.2 _ rfl⟩

/-- C6: if the views directory does not exist, `main` prints its message
and returns early — no file is opened, read, or written; otherwise the
run always completes normally with a summary, however many substitutions
were made. -/
theorem claim_C6 :
    ∀ fs : FS,
      (fs.viewsExists = false → main fs = .noViews ∧ touched fs = []) ∧
      (fs.viewsExists = true →
        (∃ r t m, main fs = .done r t m) ∧ touched fs = candidates fs) := by
  intro fs
  constructor
  · exact main_noViews fs
  · intro h
    refine ⟨?_, touched_of_views fs h⟩
    unfold main
    rw [if_pos h]
    exact ⟨_, _, _, rfl⟩

/-- C6 (witness): the claim applied to a filesystem without and one with
a views directory. -/
theorem claim_C6_witness :
    (main ⟨false, [], fun _ => .error [], fun _ => .ok ()⟩ = .noViews ∧
      touched ⟨false, [], fun _ => .error [], fun _ => .ok ()⟩ = []) ∧
    ((∃ r t m, main ⟨true, [], fun _ => .error [], fun _ => .ok ()⟩ = .done r t m) ∧
      touched ⟨true, [], fun _ => .error [], fun _ => .ok ()⟩ =
        candidates ⟨true, [], fun _ => .error [], fun _ => .ok ()⟩) :=
  ⟨(claim_C6 _).1 rfl, (claim_C6 _).2 rfl⟩

/-- C7: a file in which no pattern of the script finds any match is left
byte-for-byte unchanged, no write is performed, and the call returns
substitution count 0. -/
theorem claim_C7 : ∀ (content path : Str) (w : Except Str Unit),
    (∀ p ∈ allPats, pycount p content = 0) →
    processContent content = (content, 0) ∧
    replace_fontawesome_in_file path (.ok content) w = ⟨0, none, none⟩ := by
  intro content path w h
  have hfold : ∀ e ∈ ICON_MAP, pycount (pat1 e.1) content = 0 ∧ pycount (pat2 e.1) content = 0 := by
    intro e he
    constructor
    · exact h _ (List.mem_append_left _ (List.mem_flatMap.mpr ⟨e, he, by simp⟩))
    · exact h _ (List.mem_append_left _ (List.mem_flatMap.mpr ⟨e, he, by simp⟩))
  have hspin : pycount spinnerPat content = 0 := h _ (List.mem_append_right _ (by simp))
  have hpc : processContent content = (content, 0) :=
    processContent_nomatch_spin content content hfold (pysub_of_pycount_zero _ _ _ hspin)
  exact ⟨hpc, replace_nochange path content w (by rw [hpc])⟩

/-- C7 (witness): the claim applied to `hello world`. -/
theorem claim_C7_witness :
    processContent (str "hello world") = (str "hello world", 0) ∧
    replace_fontawesome_in_file (str "views/h.ejs") (.ok (str "hello world")) (.ok ()) =
      ⟨0, none, none⟩ :=
  claim_C7 (str "hello world") (str "views/h.ejs") (.ok ()) (by decide)

/-- C8: a file lying under a path segment named `backup` is excluded
from the candidate list and is never touched by the run, whatever its
content. -/
theorem claim_C8 : ∀ (fs : FS) (segs : List Str), str "backup" ∈ segs →
    joinPath segs ∉ candidates fs ∧ joinPath segs ∉ touched fs := by
  intro fs segs h
  have hc := containsSub_joinPath segs h
  have h1 := not_mem_candidates_of_backup fs _ hc
  refine ⟨h1, ?_⟩
  cases hv : fs.viewsExists with
  | true =>
    rw [touched_of_views fs hv]
    exact h1
  | false =>
    rw [(main_noViews fs hv).2]
    simp

/-- C8 (witness): the claim applied to `views/backup/a.ejs` on a
filesystem that does list that file. -/
theorem claim_C8_witness :
    joinPath [str "views", str "backup", str "a.ejs"] ∉
      candidates ⟨true, [joinPath [str "views", str "backup", str "a.ejs"]],
        fun _ => .ok [], fun _ => .ok ()⟩ ∧
    joinPath [str "views", str "backup", str "a.ejs"] ∉
      touched ⟨true, [joinPath [str "views", str "backup", str "a.ejs"]],
        fun _ => .ok [], fun _ => .ok ()⟩ :=
  claim_C8 _ [str "views", str "backup", str "a.ejs"] (by decide)

/-- C9: an input matched only by the spinner special case — e.g.
`<i class="fas fa-spinner fa-spin" id="x"></i>` — is rewritten on disk
(the element becomes `⏳`), yet the call returns substitution count 0,
so `main`'s summary counts neither the substitution nor the file as
modified. -/
theorem claim_C9 :
    replace_fontawesome_in_file (str "views/a.ejs")
        (.ok (str "<i class=\"fas fa-spinner fa-spin\" id=\"x\"></i>")) (.ok ()) =
      ⟨0, some (str "⏳"), none⟩ ∧
    (str "⏳" : Str) ≠ str "<i class=\"fas fa-spinner fa-spin\" id=\"x\"></i>" ∧
    main ⟨true, [str "views/a.ejs"],
        fun _ => .ok (str "<i class=\"fas fa-spinner fa-spin\" id=\"x\"></i>"),
        fun _ => .ok ()⟩ =
      .done [(str "views/a.ejs", ⟨0, some (str "⏳"), none⟩)] 0 0 := by
  have hrep := replace_ok (str "views/a.ejs") _ _ _ spin_id_eval (by decide)
  refine ⟨hrep, by decide, ?_⟩
  unfold main
  rw [if_pos rfl]
  rw [show candidates ⟨true, [str "views/a.ejs"],
        fun _ => .ok (str "<i class=\"fas fa-spinner fa-spin\" id=\"x\"></i>"),
        fun _ => .ok ()⟩ = [str "views/a.ejs"] from by decide]
  simp only [List.map]
  rw [hrep]
  rfl

/-- C10: `fa-calendar` precedes `fa-calendar-check` in the table, and its
broad pattern already matches the longer identifier, so
`<i class="fas fa-calendar-check"></i>` is replaced by 📅 (the emoji of
`fa-calendar`) rather than ✅ (the emoji of `fa-calendar-check`), and the
substitution is counted during the `fa-calendar` iteration: the running
count is still 0 after the first 38 entries and becomes 1 exactly when
entry 38, `fa-calendar`, is processed. -/
theorem claim_C10 :
    ICON_MAP[38]? = some (str "fa-calendar", str "📅") ∧
    ICON_MAP[41]? = some (str "fa-calendar-check", str "✅") ∧
    List.foldl iconStep (narrowOf (str "fa-calendar-check"), 0) (ICON_MAP.take 38) =
      (narrowOf (str "fa-calendar-check"), 0) ∧
    List.foldl iconStep (narrowOf (str "fa-calendar-check"), 0) (ICON_MAP.take 39) =
      (str "📅 ", 1) ∧
    processContent (str "<i class=\"fas fa-calendar-check\"></i>") = (str "📅 ", 1) ∧
    (str "📅 " : Str) ≠ str "✅ " := by
  have hcc : (str "fa-calendar-check", str "✅") ∈ ICON_MAP := by decide
  have h38 : List.foldl iconStep (narrowOf (str "fa-calendar-check"), 0) (ICON_MAP.take 38) =
      (narrowOf (str "fa-calendar-check"), 0) := by
    have h := foldl_iconStep_narrow (str "fa-calendar-check") (by decide) (ICON_MAP.take 38)
      (fun d hd c hc => (wfKeys d (List.take_subset _ _ hd) c hc).2.1)
      (fun d hd => emNoLt d (List.take_subset _ _ hd))
      (fun d hd => hitFacts (str "fa-calendar-check", str "✅") hcc d (List.take_subset _ _ hd))
    rw [show (ICON_MAP.take 38).find?
        (fun d => d.1.isPrefixOf (str "fa-calendar-check")) = none from by decide] at h
    exact h
  have h39 : List.foldl iconStep (narrowOf (str "fa-calendar-check"), 0) (ICON_MAP.take 39) =
      (str "📅 ", 1) := by
    rw [show ICON_MAP.take 39 =
        ICON_MAP.take 38 ++ [(str "fa-calendar", str "📅")] from by decide]
    rw [List.foldl_append, h38, List.foldl_cons, List.foldl_nil]
    exact hitFacts (str "fa-calendar-check", str "✅") hcc
      (str "fa-calendar", str "📅") (by decide) (by decide)
  refine ⟨by decide, by decide, h38, h39, ?_, by decide⟩
  exact processNarrowKey (str "fa-calendar-check", str "✅") hcc
    (str "fa-calendar", str "📅") (by decide)

end FontAwesome
